import Mathlib

/-
Verification of the CI build-log fetcher of `autoprat`
(src/bin/autoprat/log_fetcher.rs), as a shallow embedding in Lean 4.

The embedding keeps the source's names where Lean allows it:
`is_error_line_with_pattern`, `ERROR_PATTERNS`, `PATTERN_NAMES`,
`TaskState`, `ci_url_to_log_url`, `collect_failing_check_urls`,
`fetch_logs_for_prs`, `fetch_urls_concurrently` all correspond to the
Rust items of the same name.  The HTTP layer (reqwest) is modelled by an
oracle mapping each log URL to a response; line iteration of the
streamed body is a list of read results (`Except` for a read error on a
line boundary, mirroring `LinesStream`).  Rust's `HashMap` is modelled
as an association list with unique keys: `collect` inserts in iteration
order with later keys overwriting, `get_mut` edits the held entry in
place, `remove` deletes it.  Machine integers (`u64`, `usize`) stay in
`Nat`: no arithmetic in this subsystem can overflow (all counters are
bounded by small constants).
-/

namespace Autoprat

/-! Character-level string helpers.  All are structural recursions so
that concrete instances reduce inside the kernel.  They model the Rust
`str` operations used by the fetcher: `trim`, `len` (UTF-8 bytes),
`contains`, `replace`, and the handful of regular-expression shapes in
the error-pattern table. -/

/-- All suffixes of a character list, longest first (the list itself down
to `[]`). -/
def suffixes : List Char → List (List Char)
  | [] => [[]]
  | c :: rest => (c :: rest) :: suffixes rest

/-- Substring containment on character lists: some suffix of `hay`
starts with `needle`. -/
def containsSub (needle hay : List Char) : Bool :=
  (suffixes hay).any (fun t => needle.isPrefixOf t)

/-- Lowercase a character list (ASCII case folding, modelling the `(?i)`
regex flag on the ASCII text the patterns target). -/
def lowerChars (l : List Char) : List Char :=
  l.map Char.toLower

/-- Byte length of a character list under UTF-8, modelling Rust
`str::len`. -/
def utf8Len (l : List Char) : Nat :=
  l.foldl (fun n c => n + c.utf8Size) 0

/-- Trim leading and trailing whitespace, modelling `str::trim`. -/
def trimChars (l : List Char) : List Char :=
  ((l.dropWhile Char.isWhitespace).reverse.dropWhile Char.isWhitespace).reverse

/-- Trimmed copy of a string. -/
def strTrim (s : String) : String :=
  ⟨trimChars s.toList⟩

/-- Case-sensitive substring test on strings, modelling
`str::contains`. -/
def strContains (hay needle : String) : Bool :=
  containsSub needle.toList hay.toList

/-- Replace every (leftmost, non-overlapping) occurrence of `pat`,
fuel-structured so it reduces; the fuel is the subject's length, enough
because each step consumes at least one character. -/
def replaceAux (pat repl : List Char) : Nat → List Char → List Char
  | _, [] => []
  | 0, s => s
  | fuel + 1, c :: rest =>
      if pat.isPrefixOf (c :: rest) then
        repl ++ replaceAux pat repl fuel (List.drop (pat.length - 1) rest)
      else
        c :: replaceAux pat repl fuel rest

/-- Model of Rust `str::replace` for a non-empty pattern (the fetcher
only replaces the literal "/view/gs"). -/
def strReplace (s pat repl : String) : String :=
  if pat.toList.isEmpty then s
  else ⟨replaceAux pat.toList repl.toList s.toList.length s.toList⟩

/-- Decimal rendering of a natural number, fuel-structured so it reduces
(models `format!` of a number). -/
def natDigits : Nat → Nat → List Char
  | 0, _ => []
  | fuel + 1, n =>
      if n < 10 then [Char.ofNat (48 + n)]
      else natDigits fuel (n / 10) ++ [Char.ofNat (48 + n % 10)]

/-- Decimal string of a natural number. -/
def natToStr (n : Nat) : String :=
  ⟨natDigits (n + 1) n⟩

/-! Regular-expression shapes used by the error-pattern table.  Each
regex of the source is one of: a literal substring (case sensitive or
under `(?i)`), an anchored prefix (`^...`), `A.*B` (an occurrence of `A`
with an occurrence of `B` at or after its end — `.` never faces a
newline since the subject is a single line), or a literal followed by a
character class. -/

/-- Case-insensitive substring test: `needle` is written lowercase. -/
def ciContains (needle hay : String) : Bool :=
  containsSub needle.toList (lowerChars hay.toList)

/-- Matches `A.*B` (case sensitive): an occurrence of `a` followed, at
or after its end, by an occurrence of `b`. -/
def seqContains (a b : String) (hay : List Char) : Bool :=
  (suffixes hay).any (fun t =>
    a.toList.isPrefixOf t && containsSub b.toList (t.drop a.toList.length))

/-- Case-insensitive `A.*B` (needles written lowercase). -/
def ciSeq (a b hay : String) : Bool :=
  seqContains a b (lowerChars hay.toList)

/-- Case-sensitive `A.*B` on a string. -/
def csSeq (a b hay : String) : Bool :=
  seqContains a b hay.toList

/-- Word character, modelling the regex class backslash-w on ASCII. -/
def isWordChar (c : Char) : Bool :=
  c.isAlphanum || c = '_'

/-- Matches a literal followed immediately by one character satisfying
`cls` (models `LIT[class]` and, via a leading digit, `LIT[class]+`). -/
def litThenClass (lit : String) (cls : Char → Bool) (hay : List Char) : Bool :=
  (suffixes hay).any (fun t =>
    lit.toList.isPrefixOf t &&
      (match t.drop lit.toList.length with
       | c :: _ => cls c
       | [] => false))

/-- Matches a literal followed, anywhere later, by one character
satisfying `cls` (models `LIT.*[class]`). -/
def litThenAnyClass (lit : String) (cls : Char → Bool) (hay : List Char) : Bool :=
  (suffixes hay).any (fun t =>
    lit.toList.isPrefixOf t && (t.drop lit.toList.length).any cls)

/-- Digit between 1 and 9. -/
def isNonZeroDigit (c : Char) : Bool :=
  '1' ≤ c && c ≤ '9'

/-- Regex `(?i)exit code.*[1-9]`. -/
def exitCodeRegex (hay : String) : Bool :=
  litThenAnyClass "exit code" isNonZeroDigit (lowerChars hay.toList)

/-- Regex `Warning \w+`. -/
def warningEventRegex (hay : String) : Bool :=
  litThenClass "Warning " isWordChar hay.toList

/-- Regex `make: \*\*\*.*Error \d+`. -/
def makeErrorRegex (hay : String) : Bool :=
  (suffixes hay.toList).any (fun t =>
    "make: ***".toList.isPrefixOf t &&
      litThenClass "Error " Char.isDigit (t.drop "make: ***".toList.length))

/-- Regex `Process completed with exit code [1-9]`. -/
def processExitRegex (hay : String) : Bool :=
  litThenClass "Process completed with exit code " isNonZeroDigit hay.toList

/-- Regex `err="[^\x22]*"`: an occurrence of `err="` with any later
closing quote (the first later quote has only non-quotes before it, so
existence of a later quote is exactly matchability). -/
def goErrFieldRegex (hay : String) : Bool :=
  litThenAnyClass "err=\"" (fun c => c = '"') hay.toList

/-- The fixed pattern table of `is_error_line_with_pattern`, in the
declaration order of the source's `RegexSet`. -/
def ERROR_PATTERNS : List (String → Bool) :=
  [ -- Standard error keywords.
    ciContains "error:",
    ciContains "failed:",
    ciContains "failure:",
    ciContains "fatal:",
    ciContains "panic:",
    fun l => "E ".toList.isPrefixOf l.toList,
    fun l => "FAIL ".toList.isPrefixOf l.toList,
    exitCodeRegex,
    -- Common logging libraries.
    fun l => strContains l "level=error",
    fun l => strContains l "\"level\":\"error\"",
    fun l => strContains l "ERROR [",
    ciContains "error |",
    -- Kubernetes-specific patterns.
    warningEventRegex,
    ciContains "crashloopbackoff",
    ciContains "imagepullbackoff",
    ciContains "evicted",
    -- CI-specific patterns.
    fun l => strContains l "::error::",
    makeErrorRegex,
    fun l => strContains l "Error response from daemon",
    ciContains "build failed",
    ciContains "test failed",
    -- GitHub Actions Runner patterns.
    fun l => strContains l "##[error]",
    processExitRegex,
    ciSeq "runner" "error",
    ciSeq "workflow" "failed",
    ciSeq "action" "failed",
    -- Prow/Tide patterns.
    csSeq "level=error" "prow",
    csSeq "level=error" "tide",
    ciSeq "prow" "error",
    ciSeq "tide" "error",
    ciSeq "presubmit" "failed",
    ciSeq "postsubmit" "failed",
    ciSeq "periodic" "failed",
    ciSeq "prowjob" "failed",
    ciSeq "hook" "error",
    ciSeq "deck" "error",
    ciSeq "spyglass" "error",
    ciSeq "crier" "error",
    ciSeq "sinker" "error",
    -- Other CI systems.
    ciSeq "jenkins" "error",
    ciSeq "tekton" "error",
    ciSeq "gitlab" "error",
    ciSeq "circleci" "error",
    ciSeq "travis" "error",
    ciSeq "buildkite" "error",
    ciSeq "concourse" "error",
    -- Go error patterns.
    goErrFieldRegex,
    ciContains "cannot ",
    -- Additional common patterns.
    ciContains "exception:",
    ciContains "traceback",
    ciContains "stack trace" ]

/-- Pattern names corresponding to the patterns above, in the same
order (the source's `PATTERN_NAMES`). -/
def PATTERN_NAMES : List String :=
  [ "error-keyword",
    "failed-keyword",
    "failure-keyword",
    "fatal-keyword",
    "panic-keyword",
    "error-prefix",
    "fail-prefix",
    "exit-code",
    "logrus-error",
    "zap-json-error",
    "java-spring-error",
    "structured-logger-error",
    "k8s-warning-events",
    "k8s-crashloop",
    "k8s-imagepull",
    "k8s-evicted",
    "github-actions-error",
    "make-error",
    "docker-daemon-error",
    "build-failed",
    "test-failed",
    "github-actions-annotation",
    "process-exit-code",
    "runner-error",
    "workflow-failed",
    "action-failed",
    "prow-component-error",
    "tide-component-error",
    "prow-general-error",
    "tide-general-error",
    "presubmit-failed",
    "postsubmit-failed",
    "periodic-failed",
    "prowjob-failed",
    "prow-hook-error",
    "prow-deck-error",
    "prow-spyglass-error",
    "prow-crier-error",
    "prow-sinker-error",
    "jenkins-error",
    "tekton-error",
    "gitlab-error",
    "circleci-error",
    "travis-error",
    "buildkite-error",
    "concourse-error",
    "go-error-field",
    "go-cannot-error",
    "exception-logs",
    "python-traceback",
    "stack-trace" ]

/-- Whether pattern `i` of the table matches `line` (false out of
range). -/
def patternAt (i : Nat) (line : String) : Bool :=
  ((ERROR_PATTERNS.getD i (fun _ => false)) line)

/-- Indices reported by `RegexSet::matches`, in ascending pattern order
(that is how `matches.iter()` yields them). -/
def regexSetMatches (line : String) : List Nat :=
  (List.range ERROR_PATTERNS.length).filter (fun i => patternAt i line)

/-- The source's `is_error_line_with_pattern`: the name of the first
pattern, in declaration order, that matches the line. -/
def is_error_line_with_pattern (line : String) : Option String :=
  (regexSetMatches line).head?.bind (fun index => PATTERN_NAMES.get? index)

/-! Association lists with unique keys, modelling Rust `HashMap`:
`collect` inserts in iteration order with a later key overwriting an
earlier one, `get_mut` edits the held entry in place, `remove` deletes
it.  Iteration order of a `HashMap` is unspecified; theorems touched by
it quantify over arbitrary result orders. -/

section AList

variable {κ ν : Type} [DecidableEq κ]

/-- Lookup of the entry held for a key. -/
def alGet (k : κ) : List (κ × ν) → Option ν
  | [] => none
  | (k₁, v) :: rest => if k₁ = k then some v else alGet k rest

/-- Insert, overwriting the entry held for the key if any. -/
def alInsert (k : κ) (v : ν) : List (κ × ν) → List (κ × ν)
  | [] => [(k, v)]
  | (k₁, v₁) :: rest =>
      if k₁ = k then (k₁, v) :: rest else (k₁, v₁) :: alInsert k v rest

/-- Edit the entry held for a key in place (no effect when absent),
modelling `get_mut` followed by mutation. -/
def alModify (k : κ) (f : ν → ν) : List (κ × ν) → List (κ × ν)
  | [] => []
  | (k₁, v) :: rest =>
      if k₁ = k then (k₁, f v) :: rest else (k₁, v) :: alModify k f rest

/-- Delete the entry held for a key, modelling the removal half of
`HashMap::remove`. -/
def alErase (k : κ) : List (κ × ν) → List (κ × ν)
  | [] => []
  | (k₁, v) :: rest =>
      if k₁ = k then rest else (k₁, v) :: alErase k rest

end AList

/-! Data model of the fetcher, translated from `types.rs` and
`log_fetcher.rs`.  `CheckName` is a trimmed non-empty string; the
invariant plays no role in the fetcher, so names stay plain strings.
`Url` carries the three observations the fetcher makes of a parsed
`url::Url` (full text, host, path); parsing itself is the external `url`
crate.  Fields of `PullRequest` never consulted by the fetcher (title,
author, labels, comments, ...) are omitted. -/

/-- Final outcome of a completed CI check run (`CheckConclusion`). -/
inductive CheckConclusion : Type
  | Success
  | Failure
  | Cancelled
  | TimedOut
  | ActionRequired
  | Neutral
  | Skipped
deriving DecidableEq, Repr

/-- State of a CI status context (`CheckState`). -/
inductive CheckState : Type
  | Success
  | Failure
  | Pending
  | Error
deriving DecidableEq, Repr

/-- A parsed check URL, as the fetcher observes it: the full serialised
text, the host (when any) and the path component. -/
structure Url : Type where
  asStr : String
  host : Option String
  path : String
deriving DecidableEq, Repr

/-- A validated log URL (`LogUrl`): the serialised text of a URL that
parsed and uses the http or https scheme. -/
structure LogUrl : Type where
  asStr : String
deriving DecidableEq, Repr

/-- The `LogUrl::new` constructor: re-parse and demand an HTTP or HTTPS
scheme.  The `url` crate's parser is external; the fetcher only ever
feeds it strings built from already-parsed URLs, on which parsing
succeeds, so its model reduces to the scheme test the Rust code
performs. -/
def LogUrl.new (s : String) : Option LogUrl :=
  if "http://".toList.isPrefixOf s.toList || "https://".toList.isPrefixOf s.toList then
    some ⟨s⟩
  else
    none

/-- Information about one CI check of a pull request (`CheckInfo`).
`run_status` is never consulted by `is_failed` nor by the fetcher and is
omitted. -/
structure CheckInfo : Type where
  name : String
  conclusion : Option CheckConclusion
  status_state : Option CheckState
  url : Option Url
deriving DecidableEq, Repr

/-- The source's `CheckInfo::is_failed`. -/
def CheckInfo.is_failed (c : CheckInfo) : Bool :=
  (match c.conclusion with
   | some CheckConclusion.Failure => true
   | some CheckConclusion.Cancelled => true
   | some CheckConclusion.TimedOut => true
   | _ => false) ||
  (match c.status_state with
   | some CheckState.Failure => true
   | some CheckState.Error => true
   | _ => false)

/-- A pull request, restricted to the fields the fetcher reads. -/
structure PullRequest : Type where
  number : Nat
  checks : List CheckInfo
deriving DecidableEq, Repr

/-- Details about a failed log-fetch operation (`FetchError`). -/
structure FetchError : Type where
  pr_number : Nat
  check_name : String
  check_url : Url
  log_url : LogUrl
  error : String
deriving DecidableEq, Repr

/-- Result of fetching logs for a single pull request (`PrResult`):
the PR, the per-check error lines, and the fetch failures. -/
structure PrResult : Type where
  pr : PullRequest
  logs : List (String × List String)
  fetch_errors : List FetchError
deriving DecidableEq, Repr

/-- Per-task accumulator of the processor closure (`TaskState`). -/
structure TaskState : Type where
  check_name : String
  error_lines : List String
  error_count : Nat
  line_count : Nat
  pattern_matches : List (String × Nat)
deriving DecidableEq, Repr

/-- The source's `TaskState::new`. -/
def TaskState.new (check_name : String) : TaskState :=
  ⟨check_name, [], 0, 0, []⟩

/-- The `*entry(name).or_insert(0) += 1` histogram bump. -/
def bumpEntry (name : String) : List (String × Nat) → List (String × Nat)
  | [] => [(name, 1)]
  | (k, v) :: rest =>
      if k = name then (k, v + 1) :: rest else (k, v) :: bumpEntry name rest

/-- The truncation marker the processor appends at the error cap. -/
def truncationMarker : String := "... (truncated)"

/-- The processor closure of `fetch_logs_for_prs`: feed one line to the
task state, returning the new state and whether to keep consuming. -/
def processLine (line : String) (state : TaskState) : TaskState × Bool :=
  let state₁ := { state with line_count := state.line_count + 1 }
  if (trimChars line.toList).isEmpty || decide (500 < utf8Len line.toList) then
    (state₁, decide (state₁.line_count < 1000))
  else
    match is_error_line_with_pattern line with
    | some pattern_name =>
        let state₂ :=
          { state₁ with
            error_lines := state₁.error_lines ++ [strTrim line],
            error_count := state₁.error_count + 1,
            pattern_matches := bumpEntry pattern_name state₁.pattern_matches }
        if 20 ≤ state₂.error_count then
          ({ state₂ with error_lines := state₂.error_lines ++ [truncationMarker] }, false)
        else
          (state₂, decide (state₂.line_count < 1000))
    | none => (state₁, decide (state₁.line_count < 1000))

/-- Feed lines to the processor until it signals stop or the lines run
out; also report whether the processor was still willing to continue. -/
def runLinesCont : List String → TaskState → TaskState × Bool
  | [], s => (s, true)
  | l :: rest, s =>
      let step := processLine l s
      if step.2 then runLinesCont rest step.1 else (step.1, false)

/-- Final state after feeding a full line stream from a state. -/
def runLines (lines : List String) (s : TaskState) : TaskState :=
  (runLinesCont lines s).1

/-- The body-streaming loop of `fetch_urls_concurrently`: each item is a
line read result; a read error aborts the task with a `Failure`
(discarding the accumulated state), otherwise the line feeds the
processor until it signals stop. -/
def streamRun : List (Except String String) → TaskState → Except String TaskState
  | [], s => Except.ok s
  | Except.error e :: _, _ => Except.error ("Failed to read line: " ++ e)
  | Except.ok l :: rest, s =>
      let step := processLine l s
      if step.2 then streamRun rest step.1 else Except.ok step.1

deriving instance DecidableEq for Except

/-- A task's completed outcome with its routing context
(`StreamResult`). -/
structure StreamResult : Type where
  pr_number : Nat
  check_name : String
  check_url : Url
  log_url : LogUrl
  result : Except String TaskState
deriving DecidableEq, Repr

/-- An HTTP response as the fetcher observes it: the status code and
the streamed body as line read results. -/
structure HttpResponse : Type where
  status : Nat
  body : List (Except String String)
deriving DecidableEq, Repr

/-- What the HTTP layer yields for one GET: a transport error from
`send()` (after the retry middleware gave up) or a response. -/
inductive FetchResponse : Type
  | sendError (msg : String)
  | response (r : HttpResponse)
deriving DecidableEq, Repr

/-- The network, as an oracle from log URL to what its GET yields.  The
retry middleware and timeouts live inside the oracle: the fetcher only
sees the final answer per URL. -/
def Oracle : Type := LogUrl → FetchResponse

/-- Whether a status code is a success (`StatusCode::is_success`,
2xx). -/
def isSuccessStatus (status : Nat) : Bool :=
  200 ≤ status && status < 300

/-- One task's execution inside `fetch_urls_concurrently`: GET the log
URL, fail on transport error or non-success status, otherwise stream
the body through the processor from a fresh `TaskState`.  (The Rust
error text for a bad status renders the status code through
`StatusCode`'s display; the model keeps the numeric code.) -/
def runTask (oracle : Oracle) :
    Nat × String × Url × LogUrl → StreamResult
  | (pr_number, check_name, check_url, log_url) =>
      let result :=
        match oracle log_url with
        | FetchResponse.sendError e =>
            Except.error ("HTTP request failed: " ++ e)
        | FetchResponse.response r =>
            if isSuccessStatus r.status then
              streamRun r.body (TaskState.new check_name)
            else
              Except.error ("HTTP " ++ natToStr r.status ++ " from " ++ log_url.asStr)
      ⟨pr_number, check_name, check_url, log_url, result⟩

/-- The source's `ci_url_to_log_url`: the URL resolver's ordered
allow-list. -/
def ci_url_to_log_url (url : Url) : Option LogUrl :=
  if url.host = some "prow.ci.openshift.org" && strContains url.path "/view/gs/" then
    LogUrl.new ("https://storage.googleapis.com" ++
      strReplace url.path "/view/gs" "" ++ "/build-log.txt")
  else if url.host = some "github.com" && strContains url.path "/actions/runs/" then
    none
  else if strContains url.asStr "raw" || url.host = some "storage.googleapis.com" then
    LogUrl.new url.asStr
  else if strContains url.asStr "#issuecomment" then
    none
  else
    none

/-- The initial per-PR result map of `fetch_logs_for_prs` (`collect`
into a `HashMap` keyed by PR number; a duplicate number keeps the later
record). -/
def buildPrMap (prs : List PullRequest) : List (Nat × PrResult) :=
  prs.foldl (fun m pr => alInsert pr.number ⟨pr, [], []⟩ m) []

/-- The source's `collect_failing_check_urls`: one task per failing
check whose URL resolves. -/
def collect_failing_check_urls (pr_results : List (Nat × PrResult)) :
    List (Nat × String × Url × LogUrl) :=
  pr_results.flatMap (fun entry =>
    entry.2.pr.checks.filterMap (fun check =>
      if check.is_failed then
        match check.url with
        | some url =>
            (ci_url_to_log_url url).map
              (fun log_url => (entry.2.pr.number, check.name, url, log_url))
        | none => none
      else none))

/-- Effect of one completed task on its own PR's result: a success with
at least one error line populates `logs[checkName]`, a failure appends
a `FetchError` with the task's full context. -/
def routePhi (sr : StreamResult) (pr_result : PrResult) : PrResult :=
  match sr.result with
  | Except.ok state =>
      if state.error_lines.isEmpty then pr_result
      else
        { pr_result with
          logs := alInsert state.check_name state.error_lines pr_result.logs }
  | Except.error e =>
      { pr_result with
        fetch_errors := pr_result.fetch_errors ++
          [⟨sr.pr_number, sr.check_name, sr.check_url, sr.log_url, e⟩] }

/-- Routing of one completed task into the per-PR result map; a task
whose PR number is absent from the map is dropped (`get_mut`
misses). -/
def routeResult (m : List (Nat × PrResult)) (sr : StreamResult) :
    List (Nat × PrResult) :=
  alModify sr.pr_number (routePhi sr) m

/-- The result-collection loop of `fetch_logs_for_prs`, over the task
outcomes in their (arbitrary) completion order. -/
def aggregate (m : List (Nat × PrResult)) (results : List StreamResult) :
    List (Nat × PrResult) :=
  results.foldl routeResult m

/-- Model of `fetch_urls_concurrently` up to completion order: every
task runs to exactly one outcome; `buffer_unordered` delivers the
outcomes in an order the caller must not rely on, so theorems sensitive
to it quantify over permutations of this canonical list. -/
def fetch_urls_concurrently (oracle : Oracle)
    (tasks : List (Nat × String × Url × LogUrl)) : List StreamResult :=
  tasks.map (runTask oracle)

/-- The final reassembly of `fetch_logs_for_prs`: walk the input PRs in
order, `remove` each one's entry from the map (a duplicate PR number
finds nothing the second time and is skipped). -/
def reassemble : List PullRequest → List (Nat × PrResult) → List PrResult
  | [], _ => []
  | pr :: rest, m =>
      match alGet pr.number m with
      | some r => r :: reassemble rest (alErase pr.number m)
      | none => reassemble rest m

/-- The source's `fetch_logs_for_prs`: build the per-PR map, collect
the fetch tasks, run them, route each outcome to its PR, and return the
results in input order. -/
def fetch_logs_for_prs (oracle : Oracle) (prs : List PullRequest) :
    List PrResult :=
  let pr_results := buildPrMap prs
  let urls_to_fetch := collect_failing_check_urls pr_results
  let pr_results :=
    if urls_to_fetch.isEmpty then pr_results
    else aggregate pr_results (fetch_urls_concurrently oracle urls_to_fetch)
  reassemble prs pr_results

/-- The `FetchError` a failure outcome contributes, assembled from its
`StreamResult` context. -/
def mkFetchError (sr : StreamResult) (e : String) : FetchError :=
  ⟨sr.pr_number, sr.check_name, sr.check_url, sr.log_url, e⟩

/-- Loop invariant of a task state still willing to consume: the error
lines are exactly the matches so far and the error cap is strictly
ahead. -/
def StateInv (s : TaskState) : Prop :=
  s.error_lines.length = s.error_count ∧ s.error_count ≤ 19

/-- Shape of any state the processor can leave behind: at most 21 error
lines, 21 exactly when the 20-error cap was hit, and then the last line
is the truncation marker. -/
def StateFinal (s : TaskState) : Prop :=
  s.error_lines.length ≤ 21 ∧
  (s.error_lines.length = 21 ↔ 20 ≤ s.error_count) ∧
  (s.error_lines.length = 21 → s.error_lines.getLast? = some truncationMarker)

/-! Lemmas about the association-list map operations. -/

section AListLemmas

variable {κ ν : Type} [DecidableEq κ]

theorem alGet_alModify_self (k : κ) (f : ν → ν) (m : List (κ × ν)) :
    alGet k (alModify k f m) = (alGet k m).map f := by
  induction m with
  | nil => rfl
  | cons hd tl ih =>
      obtain ⟨k₁, v⟩ := hd
      simp only [alModify]
      by_cases h : k₁ = k
      · simp [alGet, h]
      · simp [alGet, h, ih]

theorem alGet_alModify_ne (k k₁ : κ) (f : ν → ν) (m : List (κ × ν))
    (h : k ≠ k₁) : alGet k (alModify k₁ f m) = alGet k m := by
  induction m with
  | nil => rfl
  | cons hd tl ih =>
      obtain ⟨k₂, v⟩ := hd
      simp only [alModify]
      by_cases h₂ : k₂ = k₁
      · subst h₂
        have h₃ : k₂ ≠ k := fun hc => h hc.symm
        simp [alGet, h₃]
      · simp only [h₂, if_false]
        by_cases h₃ : k₂ = k
        · simp [alGet, h₃]
        · simp [alGet, h₃, ih]

theorem alGet_alErase_ne (k k₁ : κ) (m : List (κ × ν)) (h : k ≠ k₁) :
    alGet k (alErase k₁ m) = alGet k m := by
  induction m with
  | nil => rfl
  | cons hd tl ih =>
      obtain ⟨k₂, v⟩ := hd
      simp only [alErase]
      by_cases h₂ : k₂ = k₁
      · subst h₂
        have h₃ : k₂ ≠ k := fun hc => h hc.symm
        simp [alGet, h₃]
      · simp only [h₂, if_false]
        by_cases h₃ : k₂ = k
        · simp [alGet, h₃]
        · simp [alGet, h₃, ih]

theorem alGet_append (k : κ) (a b : List (κ × ν)) :
    alGet k (a ++ b) =
      match alGet k a with
      | some v => some v
      | none => alGet k b := by
  induction a with
  | nil => simp [alGet]
  | cons hd tl ih =>
      obtain ⟨k₁, v⟩ := hd
      by_cases h : k₁ = k
      · simp [alGet, h]
      · simp [alGet, h, ih]

theorem alInsert_fresh (k : κ) (v : ν) (m : List (κ × ν))
    (h : alGet k m = none) : alInsert k v m = m ++ [(k, v)] := by
  induction m with
  | nil => rfl
  | cons hd tl ih =>
      obtain ⟨k₁, v₁⟩ := hd
      simp only [alGet] at h
      by_cases h₁ : k₁ = k
      · simp [h₁] at h
      · simp only [h₁, if_false] at h
        simp [alInsert, h₁, ih h]

theorem alGet_alInsert_cases (k₀ k : κ) (v w : ν) (m : List (κ × ν))
    (h : alGet k (alInsert k₀ v m) = some w) : w = v ∨ alGet k m = some w := by
  induction m with
  | nil =>
      simp only [alInsert, alGet] at h
      by_cases h₁ : k₀ = k
      · simp [h₁] at h
        exact Or.inl h.symm
      · simp [h₁] at h
  | cons hd tl ih =>
      obtain ⟨k₁, v₁⟩ := hd
      simp only [alInsert] at h
      by_cases h₁ : k₁ = k₀
      · simp only [h₁, if_true] at h
        simp only [alGet] at h ⊢
        by_cases h₂ : k₀ = k
        · simp only [h₂, if_true] at h ⊢
          simp at h
          exact Or.inl h.symm
        · rw [if_neg (h₁ ▸ h₂)] at h ⊢
          exact Or.inr h
      · simp only [h₁, if_false] at h
        simp only [alGet] at h ⊢
        by_cases h₂ : k₁ = k
        · simp only [h₂, if_true] at h ⊢
          exact Or.inr h
        · simp only [h₂, if_false] at h ⊢
          exact ih h

end AListLemmas

/-! Lemmas about the per-PR map, result routing and the reassembly
pass. -/

/-- Splitting a `Nodup` hypothesis on the mapped PR numbers of a cons
cell. -/
theorem nodup_numbers_cons {pr : PullRequest} {rest : List PullRequest}
    (hnd : ((pr :: rest).map PullRequest.number).Nodup) :
    pr.number ∉ rest.map PullRequest.number ∧
      (rest.map PullRequest.number).Nodup := by
  rw [List.map_cons, List.nodup_cons] at hnd
  exact hnd

/-- Under distinct PR numbers, collecting the initial map lists one
fresh entry per PR in input order. -/
theorem buildPrMap_foldl_fresh :
    ∀ (prs : List PullRequest) (acc : List (Nat × PrResult)),
      (prs.map PullRequest.number).Nodup →
      (∀ pr ∈ prs, alGet pr.number acc = none) →
      prs.foldl (fun m pr => alInsert pr.number ⟨pr, [], []⟩ m) acc =
        acc ++ prs.map (fun pr => (pr.number, (⟨pr, [], []⟩ : PrResult)))
  | [], acc, _, _ => by simp
  | pr :: rest, acc, hnd, hfresh => by
      have hsplit := nodup_numbers_cons hnd
      simp only [List.foldl_cons]
      rw [alInsert_fresh pr.number _ acc (hfresh pr (List.mem_cons_self pr rest))]
      have hfresh₂ : ∀ pr₁ ∈ rest,
          alGet pr₁.number (acc ++ [(pr.number, (⟨pr, [], []⟩ : PrResult))]) = none := by
        intro pr₁ h₁
        rw [alGet_append, hfresh pr₁ (List.mem_cons_of_mem pr h₁)]
        have hne : pr.number ≠ pr₁.number := by
          intro hcontra
          exact hsplit.1 (hcontra ▸ List.mem_map_of_mem PullRequest.number h₁)
        simp [alGet, hne]
      rw [buildPrMap_foldl_fresh rest _ hsplit.2 hfresh₂]
      simp

/-- Under distinct PR numbers the initial map is the literal list of
`(number, empty PrResult)` pairs in input order. -/
theorem buildPrMap_eq (prs : List PullRequest)
    (hnd : (prs.map PullRequest.number).Nodup) :
    buildPrMap prs =
      prs.map (fun pr => (pr.number, (⟨pr, [], []⟩ : PrResult))) := by
  have h := buildPrMap_foldl_fresh prs [] hnd (fun pr _ => rfl)
  simpa [buildPrMap] using h

/-- Lookup in the literal map of `(number, empty PrResult)` pairs. -/
theorem alGet_map_literal :
    ∀ (prs : List PullRequest) (pr : PullRequest),
      (prs.map PullRequest.number).Nodup → pr ∈ prs →
      alGet pr.number (prs.map fun q => (q.number, (⟨q, [], []⟩ : PrResult))) =
        some ⟨pr, [], []⟩
  | [], pr, _, hpr => absurd hpr (List.not_mem_nil pr)
  | q :: rest, pr, hnd, hpr => by
      have hsplit := nodup_numbers_cons hnd
      rcases List.mem_cons.mp hpr with h | h
      · subst h
        simp [alGet]
      · have hne : q.number ≠ pr.number := by
          intro hcontra
          exact hsplit.1 (hcontra ▸ List.mem_map_of_mem PullRequest.number h)
        simp only [List.map_cons, alGet, hne, if_false]
        exact alGet_map_literal rest pr hsplit.2 h

/-- Under distinct PR numbers each PR's entry in the initial map is its
own empty result. -/
theorem buildPrMap_get (prs : List PullRequest) (pr : PullRequest)
    (hnd : (prs.map PullRequest.number).Nodup) (hpr : pr ∈ prs) :
    alGet pr.number (buildPrMap prs) = some ⟨pr, [], []⟩ := by
  rw [buildPrMap_eq prs hnd]
  exact alGet_map_literal prs pr hnd hpr

/-- Every entry of the initial map is an empty result (no distinctness
needed). -/
theorem buildPrMap_entry_aux :
    ∀ (prs : List PullRequest) (acc : List (Nat × PrResult)),
      (∀ k r, alGet k acc = some r → r.logs = [] ∧ r.fetch_errors = []) →
      ∀ k r,
        alGet k (prs.foldl (fun m pr => alInsert pr.number ⟨pr, [], []⟩ m) acc) =
          some r →
        r.logs = [] ∧ r.fetch_errors = []
  | [], _, hacc, k, r, h => hacc k r h
  | pr :: rest, acc, hacc, k, r, h => by
      refine buildPrMap_entry_aux rest _ ?_ k r (by simpa using h)
      intro k₁ r₁ h₁
      rcases alGet_alInsert_cases pr.number k₁ _ r₁ acc h₁ with h₂ | h₂
      · subst h₂
        exact ⟨rfl, rfl⟩
      · exact hacc k₁ r₁ h₂

/-- Entries of the initial map carry empty logs and errors. -/
theorem buildPrMap_entry (prs : List PullRequest) (k : Nat) (r : PrResult)
    (h : alGet k (buildPrMap prs) = some r) :
    r.logs = [] ∧ r.fetch_errors = [] :=
  buildPrMap_entry_aux prs [] (fun _ _ hh => by cases hh) k r h

/-- Under distinct PR numbers the reassembly pass is a plain lookup per
input PR: the interleaved removals never hide a later PR's entry. -/
theorem reassemble_eq_filterMap :
    ∀ (prs : List PullRequest) (m : List (Nat × PrResult)),
      (prs.map PullRequest.number).Nodup →
      reassemble prs m = prs.filterMap (fun pr => alGet pr.number m)
  | [], _, _ => rfl
  | pr :: rest, m, hnd => by
      have hsplit := nodup_numbers_cons hnd
      have hcongr : ∀ pr₁ ∈ rest,
          alGet pr₁.number (alErase pr.number m) = alGet pr₁.number m := by
        intro pr₁ h₁
        refine alGet_alErase_ne pr₁.number pr.number m ?_
        intro hcontra
        exact hsplit.1 (hcontra ▸ List.mem_map_of_mem PullRequest.number h₁)
      simp only [reassemble]
      cases hget : alGet pr.number m with
      | some r =>
          simp only [List.filterMap_cons, hget]
          rw [reassemble_eq_filterMap rest (alErase pr.number m) hsplit.2]
          congr 1
          exact List.filterMap_congr (fun pr₁ h₁ => hcongr pr₁ h₁)
      | none =>
          simp only [List.filterMap_cons, hget]
          exact reassemble_eq_filterMap rest m hsplit.2

/-- Routing never changes an entry's `pr` field. -/
theorem routePhi_pr (sr : StreamResult) (v : PrResult) :
    (routePhi sr v).pr = v.pr := by
  unfold routePhi
  cases sr.result with
  | ok st =>
      by_cases h : st.error_lines.isEmpty <;> simp [h]
  | error e => rfl

/-- Routing one outcome never changes any entry's `pr` field. -/
theorem routeResult_get_pr (m : List (Nat × PrResult)) (sr : StreamResult)
    (k : Nat) :
    (alGet k (routeResult m sr)).map PrResult.pr =
      (alGet k m).map PrResult.pr := by
  unfold routeResult
  by_cases h : k = sr.pr_number
  · subst h
    rw [alGet_alModify_self]
    cases hget : alGet sr.pr_number m with
    | none => rfl
    | some r => simp [routePhi_pr]
  · rw [alGet_alModify_ne k sr.pr_number _ m h]

/-- The collection loop never changes any entry's `pr` field. -/
theorem aggregate_get_pr :
    ∀ (rs : List StreamResult) (m : List (Nat × PrResult)) (k : Nat),
      (alGet k (aggregate m rs)).map PrResult.pr = (alGet k m).map PrResult.pr
  | [], _, _ => rfl
  | sr :: rest, m, k => by
      show (alGet k (aggregate (routeResult m sr) rest)).map PrResult.pr = _
      rw [aggregate_get_pr rest (routeResult m sr) k, routeResult_get_pr]

/-- A lookup list where every PR finds an entry carrying itself maps
back to the input PRs. -/
theorem filterMap_get_map_pr :
    ∀ (prs : List PullRequest) (m : List (Nat × PrResult)),
      (∀ pr ∈ prs, ∃ r, alGet pr.number m = some r ∧ r.pr = pr) →
      (prs.filterMap (fun pr => alGet pr.number m)).map PrResult.pr = prs
  | [], _, _ => rfl
  | pr :: rest, m, hget => by
      obtain ⟨r, hr, hrpr⟩ := hget pr (List.mem_cons_self pr rest)
      simp only [List.filterMap_cons, hr, List.map_cons, hrpr]
      rw [filterMap_get_map_pr rest m
        (fun pr₁ h₁ => hget pr₁ (List.mem_cons_of_mem pr h₁))]

/-- Under distinct PR numbers the reassembled list returns exactly the
input PRs, in input order, whatever the task outcomes and their
delivery order. -/
theorem reassemble_aggregate_pr (prs : List PullRequest)
    (rs : List StreamResult)
    (hnd : (prs.map PullRequest.number).Nodup) :
    (reassemble prs (aggregate (buildPrMap prs) rs)).map PrResult.pr = prs := by
  rw [reassemble_eq_filterMap prs _ hnd]
  refine filterMap_get_map_pr prs _ ?_
  intro pr hpr
  have h₁ := aggregate_get_pr rs (buildPrMap prs) pr.number
  rw [buildPrMap_get prs pr hnd hpr] at h₁
  cases hget : alGet pr.number (aggregate (buildPrMap prs) rs) with
  | none => rw [hget] at h₁; cases h₁
  | some r =>
      rw [hget] at h₁
      exact ⟨r, rfl, by simpa using h₁⟩

/-- Claim C4 (amended): for every input list of pull-request records
with pairwise distinct PR numbers, `fetch_logs_for_prs` returns exactly
one `PrResult` per input pull request, carrying that pull request, in
the same order as the input pull-request list — and the reassembly of
the per-PR map yields the input PRs in input order for an arbitrary
list of task outcomes, so the unordered completion of the fetch tasks
cannot disturb the result order. -/
theorem fetch_results_in_input_order (oracle : Oracle)
    (prs : List PullRequest) (rs : List StreamResult)
    (hnd : (prs.map PullRequest.number).Nodup) :
    (fetch_logs_for_prs oracle prs).map PrResult.pr = prs ∧
    (reassemble prs (aggregate (buildPrMap prs) rs)).map PrResult.pr = prs := by
  constructor
  · unfold fetch_logs_for_prs
    by_cases h : (collect_failing_check_urls (buildPrMap prs)).isEmpty
    · simpa [h] using reassemble_aggregate_pr prs [] hnd
    · simpa [h] using reassemble_aggregate_pr prs
        (fetch_urls_concurrently oracle (collect_failing_check_urls (buildPrMap prs))) hnd
  · exact reassemble_aggregate_pr prs rs hnd

/-- Witness for the amended C4 theorem at a concrete input. -/
theorem fetch_results_in_input_order_witness :
    (([⟨1, []⟩, ⟨2, []⟩] : List PullRequest).map PullRequest.number).Nodup ∧
    (fetch_logs_for_prs (fun _ => FetchResponse.sendError "x")
        [⟨1, []⟩, ⟨2, []⟩]).map PrResult.pr = [⟨1, []⟩, ⟨2, []⟩] :=
  ⟨by decide,
   (fetch_results_in_input_order (fun _ => FetchResponse.sendError "x")
      [⟨1, []⟩, ⟨2, []⟩] [] (by decide)).1⟩

/-- Counterexample to claim C4 as stated: with two input records
sharing PR number 1 the fetcher returns a single `PrResult`, not one
per input pull request (the per-number map deduplicates), so the
returned list cannot pair up with the input list. -/
theorem fetch_results_duplicate_counterexample :
    (fetch_logs_for_prs (fun _ => FetchResponse.sendError "x")
        [⟨1, []⟩, ⟨1, []⟩]).length = 1 ∧
    ([⟨1, []⟩, ⟨1, []⟩] : List PullRequest).length = 2 :=
  ⟨rfl, rfl⟩

/-! Lemmas about the per-line task state machine. -/

/-- Each processed line increments `line_count` exactly once, whatever
the state. -/
theorem processLine_line_count (l : String) (s : TaskState) :
    (processLine l s).1.line_count = s.line_count + 1 := by
  unfold processLine
  dsimp only
  split
  · rfl
  · split
    · split <;> rfl
    · rfl

/-- Processing never changes the task's check name. -/
theorem processLine_check_name (l : String) (s : TaskState) :
    (processLine l s).1.check_name = s.check_name := by
  unfold processLine
  dsimp only
  split
  · rfl
  · split
    · split <;> rfl
    · rfl

/-- The processor only continues while the line cap is strictly
ahead. -/
theorem processLine_cont_lc (l : String) (s : TaskState)
    (h : (processLine l s).2 = true) :
    (processLine l s).1.line_count < 1000 := by
  unfold processLine at h ⊢
  dsimp only at h ⊢
  split at h <;> rename_i hcond
  · rw [if_pos hcond]
    simpa using h
  · rw [if_neg hcond]
    rcases hpat : is_error_line_with_pattern l with _ | nm <;> rw [hpat] at h
    · simpa using h
    · dsimp only at h ⊢
      split at h <;> rename_i hcap
      · cases h
      · rw [if_neg hcap]
        simpa using h

/-- Any state satisfying the loop invariant also has the final
shape. -/
theorem stateInv_final (s : TaskState) (h : StateInv s) : StateFinal s := by
  obtain ⟨hlen, hcap⟩ := h
  refine ⟨by omega, ?_, ?_⟩
  · constructor
    · intro h₁; omega
    · intro h₁; omega
  · intro h₁; omega

/-- One processor step from an invariant state: a continuing state
keeps the invariant, and the state left behind always has the final
shape. -/
theorem processLine_invariant (l : String) (s : TaskState)
    (h : StateInv s) :
    ((processLine l s).2 = true → StateInv (processLine l s).1) ∧
      StateFinal (processLine l s).1 := by
  obtain ⟨hlen, hcap⟩ := h
  unfold processLine
  dsimp only
  split
  · exact ⟨fun _ => ⟨hlen, hcap⟩, stateInv_final _ ⟨hlen, hcap⟩⟩
  · rcases hpat : is_error_line_with_pattern l with _ | nm
    · exact ⟨fun _ => ⟨hlen, hcap⟩, stateInv_final _ ⟨hlen, hcap⟩⟩
    · dsimp only
      split <;> rename_i hcap₂
      · constructor
        · intro hc; cases hc
        · refine ⟨?_, ?_, ?_⟩
          · dsimp only [StateFinal]
            rw [List.length_append, List.length_append]
            dsimp only [List.length_cons, List.length_nil]
            omega
          · dsimp only
            rw [List.length_append, List.length_append]
            dsimp only [List.length_cons, List.length_nil]
            omega
          · intro _
            exact List.getLast?_concat _
      · have hc : s.error_count + 1 ≤ 19 := by omega
        have hinv : StateInv
            (⟨s.check_name, s.error_lines ++ [strTrim l], s.error_count + 1,
              s.line_count + 1, bumpEntry nm s.pattern_matches⟩ : TaskState) := by
          refine ⟨?_, hc⟩
          dsimp only
          rw [List.length_append]
          dsimp only [List.length_cons, List.length_nil]
          omega
        exact ⟨fun _ => hinv, stateInv_final _ hinv⟩

/-- Running the loop from an invariant state leaves a final-shaped
state. -/
theorem runLinesCont_final :
    ∀ (ls : List String) (s : TaskState), StateInv s →
      StateFinal (runLinesCont ls s).1
  | [], s, h => stateInv_final s h
  | l :: rest, s, h => by
      have hstep := processLine_invariant l s h
      show StateFinal (if (processLine l s).2 then
        runLinesCont rest (processLine l s).1 else ((processLine l s).1, false)).1
      by_cases hc : (processLine l s).2 = true
      · rw [if_pos hc]
        exact runLinesCont_final rest _ (hstep.1 hc)
      · rw [if_neg hc]
        exact hstep.2

/-- Running the loop from below the line cap never pushes `line_count`
past the cap. -/
theorem runLinesCont_lc :
    ∀ (ls : List String) (s : TaskState), s.line_count < 1000 →
      (runLinesCont ls s).1.line_count ≤ 1000
  | [], _, h => Nat.le_of_lt h
  | l :: rest, s, h => by
      show (if (processLine l s).2 then
        runLinesCont rest (processLine l s).1 else ((processLine l s).1, false)).1.line_count ≤ 1000
      by_cases hc : (processLine l s).2 = true
      · rw [if_pos hc]
        exact runLinesCont_lc rest _ (processLine_cont_lc l s hc)
      · rw [if_neg hc]
        rw [processLine_line_count]
        omega

/-- The line counter counts at most the lines available. -/
theorem runLinesCont_lc_le :
    ∀ (ls : List String) (s : TaskState),
      (runLinesCont ls s).1.line_count ≤ s.line_count + ls.length
  | [], _ => by simp [runLinesCont]
  | l :: rest, s => by
      show (if (processLine l s).2 then
        runLinesCont rest (processLine l s).1 else ((processLine l s).1, false)).1.line_count ≤ _
      by_cases hc : (processLine l s).2 = true
      · rw [if_pos hc]
        have h := runLinesCont_lc_le rest (processLine l s).1
        rw [processLine_line_count] at h
        refine h.trans ?_
        simp only [List.length_cons]
        omega
      · rw [if_neg hc]
        rw [processLine_line_count]
        simp only [List.length_cons]
        omega

/-- Claim C2: for every task and every log line stream, the final task
state holds at most 21 error lines; it holds exactly 21 exactly when
the 20-error cap was reached, and then its last element is the literal
truncation marker `"... (truncated)"`. -/
theorem error_lines_capped (n : String) (lines : List String) :
    (runLines lines (TaskState.new n)).error_lines.length ≤ 21 ∧
    ((runLines lines (TaskState.new n)).error_lines.length = 21 ↔
      20 ≤ (runLines lines (TaskState.new n)).error_count) ∧
    ((runLines lines (TaskState.new n)).error_lines.length = 21 →
      (runLines lines (TaskState.new n)).error_lines.getLast? =
        some "... (truncated)") := by
  have h := runLinesCont_final lines (TaskState.new n) ⟨rfl, by simp [TaskState.new]⟩
  exact h

/-- Claim C3: consumption stops at the first line after which the error
cap or the line cap is reached — for any state inside the loop (where
at most 19 errors have been recorded) the processor signals stop
exactly when the step leaves `error_count ≥ 20` or `line_count ≥ 1000`;
`line_count` advances by exactly one per consumed line, counts at most
the lines available, and never exceeds 1000 when processing stops. -/
theorem line_cap_and_stop (n : String) (lines : List String) :
    (runLines lines (TaskState.new n)).line_count ≤ 1000 ∧
    (runLines lines (TaskState.new n)).line_count ≤ lines.length ∧
    (∀ l s, (processLine l s).1.line_count = s.line_count + 1) ∧
    (∀ l s, s.error_count ≤ 19 →
      ((processLine l s).2 = false ↔
        20 ≤ (processLine l s).1.error_count ∨
          1000 ≤ (processLine l s).1.line_count)) := by
  refine ⟨runLinesCont_lc lines (TaskState.new n) (by simp [TaskState.new]),
    by simpa [TaskState.new] using runLinesCont_lc_le lines (TaskState.new n),
    processLine_line_count, ?_⟩
  intro l s hcap
  unfold processLine
  dsimp only
  split
  · simp
    omega
  · rcases hpat : is_error_line_with_pattern l with _ | nm
    · simp
      omega
    · dsimp only
      split <;> rename_i hcap₂
      · dsimp only
        constructor
        · intro _
          exact Or.inl hcap₂
        · intro _
          rfl
      · dsimp only
        simp
        omega

/-- Claim C8: a line that is blank after trimming or longer than 500
bytes skips classification — error lines, error count and the pattern
histogram are untouched — while `line_count` still advances, and the
processor continues exactly when the new `line_count` is below
1000. -/
theorem blank_or_long_skipped (l : String) (s : TaskState)
    (h : ((trimChars l.toList).isEmpty || decide (500 < utf8Len l.toList)) = true) :
    (processLine l s).1.error_lines = s.error_lines ∧
    (processLine l s).1.pattern_matches = s.pattern_matches ∧
    (processLine l s).1.error_count = s.error_count ∧
    (processLine l s).1.line_count = s.line_count + 1 ∧
    ((processLine l s).2 = true ↔ s.line_count + 1 < 1000) := by
  unfold processLine
  dsimp only
  rw [if_pos h]
  refine ⟨rfl, rfl, rfl, rfl, ?_⟩
  simp

/-- Witness for the C8 theorem: the empty line at a fresh state. -/
theorem blank_or_long_skipped_witness :
    ((trimChars "".toList).isEmpty || decide (500 < utf8Len "".toList)) = true ∧
    (processLine "" (TaskState.new "check")).1.error_lines = [] ∧
    (processLine "" (TaskState.new "check")).2 = true :=
  ⟨by decide,
   (blank_or_long_skipped "" (TaskState.new "check") (by decide)).1,
   by
     have h := (blank_or_long_skipped "" (TaskState.new "check") (by decide)).2.2.2.2
     exact h.mpr (by decide)⟩

/-! Lemmas about the line classifier. -/

/-- Head of a filtered range: the least index satisfying the
predicate. -/
theorem filter_range_head (p : Nat → Bool) :
    ∀ (n i : Nat), i < n → p i = true → (∀ j, j < i → p j = false) →
      ((List.range n).filter p).head? = some i
  | 0, i, hi, _, _ => absurd hi (Nat.not_lt_zero i)
  | n + 1, i, hi, hp, hmin => by
      rw [List.range_succ, List.filter_append]
      by_cases hin : i < n
      · have h₁ := filter_range_head p n i hin hp hmin
        cases hfil : (List.range n).filter p with
        | nil => rw [hfil] at h₁; cases h₁
        | cons a t =>
            rw [hfil] at h₁
            simp only [List.head?_cons, Option.some.injEq] at h₁
            simp [h₁]
      · have hi₂ : i = n := by omega
        have hpn : p n = true := hi₂ ▸ hp
        have hnil : (List.range n).filter p = [] := by
          refine List.filter_eq_nil_iff.mpr ?_
          intro a ha
          have hlt : a < i := by
            have := List.mem_range.mp ha
            omega
          simp [hmin a hlt]
        rw [hnil]
        simp [hpn, hi₂]

/-- Claim C5: the classifier is a function of the line alone (the model
is pure by construction), it reports at most one pattern (its result is
a single optional name), and when pattern `i` of the fixed table
matches while every earlier pattern fails, the reported name is exactly
the table's `i`-th name — first match in declaration order. -/
theorem classify_first_match (line : String) (i : Nat)
    (hi : i < ERROR_PATTERNS.length)
    (hp : patternAt i line = true)
    (hmin : ∀ j, j < i → patternAt j line = false) :
    ∃ nm, PATTERN_NAMES.get? i = some nm ∧
      is_error_line_with_pattern line = some nm := by
  have hhead : (regexSetMatches line).head? = some i :=
    filter_range_head (fun j => patternAt j line) ERROR_PATTERNS.length i hi hp hmin
  have hlen : i < PATTERN_NAMES.length := by
    have heq : PATTERN_NAMES.length = ERROR_PATTERNS.length := by decide
    omega
  refine ⟨PATTERN_NAMES.get ⟨i, hlen⟩, List.get?_eq_get hlen, ?_⟩
  unfold is_error_line_with_pattern
  rw [hhead]
  simp [List.get?_eq_get hlen]

/-- Witness for the C5 theorem: `"failed: x"` misses pattern 0 and hits
pattern 1, so the classifier reports `"failed-keyword"`. -/
theorem classify_first_match_witness :
    is_error_line_with_pattern "failed: x" = some "failed-keyword" := by
  obtain ⟨nm, hnm, hres⟩ :=
    classify_first_match "failed: x" 1 (by decide) (by decide) (by decide)
  have heq : nm = "failed-keyword" := by
    have h₂ : PATTERN_NAMES.get? 1 = some "failed-keyword" := by decide
    rw [hnm] at h₂
    exact Option.some.inj h₂
  rw [heq] at hres
  exact hres

/-! Claims about the URL resolver. -/

/-- Counterexample to claim C6 as stated: the resolver matches only the
literal Prow host `prow.ci.openshift.org`, so the check URL
`https://prow.ci.example/view/gs/bucket/job/123` resolves to nothing
rather than to the claimed storage URL. -/
theorem resolver_example_host_counterexample :
    ci_url_to_log_url ⟨"https://prow.ci.example/view/gs/bucket/job/123",
        some "prow.ci.example", "/view/gs/bucket/job/123"⟩ = none ∧
    ci_url_to_log_url ⟨"https://prow.ci.example/view/gs/bucket/job/123",
        some "prow.ci.example", "/view/gs/bucket/job/123"⟩ ≠
      some ⟨"https://storage.googleapis.com/bucket/job/123/build-log.txt"⟩ :=
  ⟨by decide, by decide⟩

/-- Claim C6 (amended): the resolver maps the check URL
`https://prow.ci.openshift.org/view/gs/bucket/job/123` to the log URL
`https://storage.googleapis.com/bucket/job/123/build-log.txt` — a Prow
view URL on the hard-coded host `prow.ci.openshift.org` whose path
contains `/view/gs/` is rewritten to the Google Cloud Storage host with
`/build-log.txt` appended and scheme `https`. -/
theorem resolver_prow_rewrite :
    ci_url_to_log_url ⟨"https://prow.ci.openshift.org/view/gs/bucket/job/123",
        some "prow.ci.openshift.org", "/view/gs/bucket/job/123"⟩ =
      some ⟨"https://storage.googleapis.com/bucket/job/123/build-log.txt"⟩ := by
  decide

/-! Claims about the streaming loop's failure behaviour. -/

/-- One step of the stream loop on a successfully read line. -/
theorem streamRun_cons_ok (l : String) (rest : List (Except String String))
    (s : TaskState) :
    streamRun (Except.ok l :: rest) s =
      if (processLine l s).2 then streamRun rest (processLine l s).1
      else Except.ok (processLine l s).1 := rfl

/-- One step of the stream loop on a failed read: the task fails,
whatever was accumulated. -/
theorem streamRun_cons_error (e : String) (rest : List (Except String String))
    (s : TaskState) :
    streamRun (Except.error e :: rest) s =
      Except.error ("Failed to read line: " ++ e) := rfl

/-- One step of the plain line loop. -/
theorem runLinesCont_cons (l : String) (rest : List String) (s : TaskState) :
    runLinesCont (l :: rest) s =
      if (processLine l s).2 then runLinesCont rest (processLine l s).1
      else ((processLine l s).1, false) := rfl

/-- The stream loop over an all-ok prefix agrees with the plain line
loop. -/
theorem streamRun_ok_append :
    ∀ (ls : List String) (rs : List (Except String String)) (s : TaskState),
      streamRun (ls.map Except.ok ++ rs) s =
        if (runLinesCont ls s).2 then streamRun rs (runLinesCont ls s).1
        else Except.ok (runLinesCont ls s).1
  | [], rs, s => by simp [runLinesCont]
  | l :: rest, rs, s => by
      rw [List.map_cons, List.cons_append, streamRun_cons_ok, runLinesCont_cons]
      by_cases hc : (processLine l s).2 = true
      · rw [if_pos hc, if_pos hc]
        exact streamRun_ok_append rest rs (processLine l s).1
      · rw [if_neg hc, if_neg hc]
        simp

/-- The outcome field of a task run, by the shape of its tuple. -/
theorem runTask_eq (oracle : Oracle) (a : Nat) (b : String) (c : Url)
    (d : LogUrl) :
    runTask oracle (a, b, c, d) =
      ⟨a, b, c, d,
        match oracle d with
        | FetchResponse.sendError e => Except.error ("HTTP request failed: " ++ e)
        | FetchResponse.response r =>
            if isSuccessStatus r.status then streamRun r.body (TaskState.new b)
            else Except.error ("HTTP " ++ natToStr r.status ++ " from " ++ d.asStr)⟩ := rfl

/-- Claim C7: when reading a line of the response body fails
mid-download (after any all-ok prefix the processor was still willing
to consume), the task's outcome is a single `Failure` carrying the read
error and the full task context — PR number, check name, check URL,
log URL — and every error line accumulated before the failure is
discarded (the failure outcome carries no task state at all); every
body yields exactly one outcome, a complete `Success` or a `Failure`,
never a mixture. -/
theorem stream_failure_is_total_failure (pr_number : Nat) (check_name : String)
    (check_url : Url) (log_url : LogUrl) (oracle : Oracle) (status : Nat)
    (okPrefix : List String) (e : String) (rest : List (Except String String))
    (horacle : oracle log_url =
      FetchResponse.response ⟨status, okPrefix.map Except.ok ++ Except.error e :: rest⟩)
    (hstatus : isSuccessStatus status = true)
    (hcont : (runLinesCont okPrefix (TaskState.new check_name)).2 = true) :
    runTask oracle (pr_number, check_name, check_url, log_url) =
      ⟨pr_number, check_name, check_url, log_url,
        Except.error ("Failed to read line: " ++ e)⟩ ∧
    ∀ (body : List (Except String String)) (s : TaskState),
      (∃ st, streamRun body s = Except.ok st) ∨
        ∃ msg, streamRun body s = Except.error msg := by
  constructor
  · rw [runTask_eq, horacle]
    dsimp only
    rw [if_pos hstatus, streamRun_ok_append, if_pos hcont]
    rfl
  · intro body s
    cases h : streamRun body s with
    | ok st => exact Or.inl ⟨st, rfl⟩
    | error msg => exact Or.inr ⟨msg, rfl⟩

/-! Lemmas tracking what routing does to logs and fetch errors,
feeding the partial-failure-isolation claim. -/

/-- Lookup after routing one outcome: the entry at the outcome's PR
number is transformed, every other entry is untouched. -/
theorem alGet_routeResult (m : List (Nat × PrResult)) (sr : StreamResult)
    (k : Nat) :
    alGet k (routeResult m sr) =
      if k = sr.pr_number then (alGet k m).map (routePhi sr) else alGet k m := by
  unfold routeResult
  by_cases h : k = sr.pr_number
  · rw [if_pos h, h, alGet_alModify_self]
  · rw [if_neg h, alGet_alModify_ne _ _ _ _ h]

/-- A successful outcome leaves every `fetch_errors` list unchanged. -/
theorem routePhi_errors_ok (sr : StreamResult) (st : TaskState) (v : PrResult)
    (h : sr.result = Except.ok st) :
    (routePhi sr v).fetch_errors = v.fetch_errors := by
  unfold routePhi
  rw [h]
  dsimp only
  split <;> rfl

/-- A failure outcome appends exactly its own `FetchError`. -/
theorem routePhi_errors_err (sr : StreamResult) (e : String) (v : PrResult)
    (h : sr.result = Except.error e) :
    (routePhi sr v).fetch_errors = v.fetch_errors ++ [mkFetchError sr e] := by
  unfold routePhi
  rw [h]
  rfl

/-- A failure outcome leaves every `logs` map unchanged. -/
theorem routePhi_logs_err (sr : StreamResult) (e : String) (v : PrResult)
    (h : sr.result = Except.error e) :
    (routePhi sr v).logs = v.logs := by
  unfold routePhi
  rw [h]

/-- What a successful outcome does to its entry's `logs` map. -/
theorem routePhi_logs_ok (sr : StreamResult) (st : TaskState) (v : PrResult)
    (h : sr.result = Except.ok st) :
    (routePhi sr v).logs =
      if st.error_lines.isEmpty then v.logs
      else alInsert st.check_name st.error_lines v.logs := by
  unfold routePhi
  rw [h]
  dsimp only
  by_cases hemp : st.error_lines.isEmpty = true <;> simp [hemp]

/-- The `logs` update of an entry depends only on the entry's `logs`. -/
theorem routePhi_logs_only (sr : StreamResult) (v₁ v₂ : PrResult)
    (h : v₁.logs = v₂.logs) : (routePhi sr v₁).logs = (routePhi sr v₂).logs := by
  cases hres : sr.result with
  | ok st =>
      rw [routePhi_logs_ok sr st v₁ hres, routePhi_logs_ok sr st v₂ hres, h]
  | error e =>
      rw [routePhi_logs_err sr e v₁ hres, routePhi_logs_err sr e v₂ hres, h]

/-- Shape analysis of two option entries with equal `logs`
projections. -/
theorem option_map_logs_cases (o₁ o₂ : Option PrResult)
    (h : o₁.map PrResult.logs = o₂.map PrResult.logs) :
    (o₁ = none ∧ o₂ = none) ∨
      ∃ v₁ v₂, o₁ = some v₁ ∧ o₂ = some v₂ ∧ v₁.logs = v₂.logs := by
  cases o₁ with
  | none => cases o₂ with
      | none => exact Or.inl ⟨rfl, rfl⟩
      | some v₂ => cases h
  | some v₁ => cases o₂ with
      | none => cases h
      | some v₂ =>
          simp only [Option.map_some', Option.some.injEq] at h
          exact Or.inr ⟨v₁, v₂, rfl, rfl, h⟩

/-- Appending a fixed error respects equal `fetch_errors`
projections. -/
theorem option_map_errors_append (o₁ o₂ : Option PrResult) (x : FetchError)
    (h : o₁.map PrResult.fetch_errors = o₂.map PrResult.fetch_errors) :
    o₁.map (fun r => r.fetch_errors ++ [x]) =
      o₂.map (fun r => r.fetch_errors ++ [x]) := by
  cases o₁ with
  | none => cases o₂ with
      | none => rfl
      | some v₂ => cases h
  | some v₁ => cases o₂ with
      | none => cases h
      | some v₂ =>
          simp only [Option.map_some', Option.some.injEq] at h ⊢
          rw [h]

/-- A run of successful outcomes leaves every `fetch_errors` list in
the map unchanged. -/
theorem aggregate_errors_ok :
    ∀ (rs : List StreamResult) (m : List (Nat × PrResult)) (k : Nat),
      (∀ r ∈ rs, ∃ st, r.result = Except.ok st) →
      (alGet k (aggregate m rs)).map PrResult.fetch_errors =
        (alGet k m).map PrResult.fetch_errors
  | [], _, _, _ => rfl
  | sr :: rest, m, k, hok => by
      show (alGet k (aggregate (routeResult m sr) rest)).map PrResult.fetch_errors = _
      rw [aggregate_errors_ok rest (routeResult m sr) k
        (fun r hr => hok r (List.mem_cons_of_mem sr hr))]
      obtain ⟨st, hst⟩ := hok sr (List.mem_cons_self sr rest)
      rw [alGet_routeResult]
      by_cases hk : k = sr.pr_number
      · rw [if_pos hk]
        cases hget : alGet k m with
        | none => rfl
        | some v => simp [routePhi_errors_ok sr st v hst]
      · rw [if_neg hk]

/-- Routing any outcome list over two maps with pointwise equal `logs`
projections keeps them pointwise equal. -/
theorem aggregate_logs_congr :
    ∀ (rs : List StreamResult) (m₁ m₂ : List (Nat × PrResult)),
      (∀ k, (alGet k m₁).map PrResult.logs = (alGet k m₂).map PrResult.logs) →
      ∀ k, (alGet k (aggregate m₁ rs)).map PrResult.logs =
        (alGet k (aggregate m₂ rs)).map PrResult.logs
  | [], _, _, h, k => h k
  | sr :: rest, m₁, m₂, h, k => by
      show (alGet k (aggregate (routeResult m₁ sr) rest)).map PrResult.logs = _
      refine aggregate_logs_congr rest (routeResult m₁ sr) (routeResult m₂ sr) ?_ k
      intro k₁
      rw [alGet_routeResult, alGet_routeResult]
      by_cases hk : k₁ = sr.pr_number
      · rw [if_pos hk, if_pos hk]
        rcases option_map_logs_cases _ _ (h k₁) with ⟨h₁, h₂⟩ | ⟨v₁, v₂, h₁, h₂, hlogs⟩
        · rw [h₁, h₂]
        · rw [h₁, h₂]
          simp [routePhi_logs_only sr v₁ v₂ hlogs]
      · rw [if_neg hk, if_neg hk]
        exact h k₁

/-- Removing one failure outcome from the delivery does not change any
entry's `logs`. -/
theorem aggregate_remove_err_logs (a b : List StreamResult)
    (f : StreamResult) (e : String) (m : List (Nat × PrResult))
    (hf : f.result = Except.error e) (k : Nat) :
    (alGet k (aggregate m (a ++ f :: b))).map PrResult.logs =
      (alGet k (aggregate m (a ++ b))).map PrResult.logs := by
  unfold aggregate
  rw [List.foldl_append, List.foldl_append, List.foldl_cons]
  refine aggregate_logs_congr b _ _ ?_ k
  intro k₁
  rw [show List.foldl routeResult m a = aggregate m a from rfl,
    show routeResult (aggregate m a) f = routeResult (aggregate m a) f from rfl]
  rw [alGet_routeResult]
  by_cases hk : k₁ = f.pr_number
  · rw [if_pos hk]
    cases hget : alGet k₁ (aggregate m a) with
    | none => rfl
    | some v => simp [routePhi_logs_err f e v hf]
  · rw [if_neg hk]

/-- Delivering exactly one failure among successes: each entry's
`fetch_errors` is untouched except the failing task's PR, which gains
exactly that task's `FetchError`. -/
theorem aggregate_one_err_errors (a b : List StreamResult)
    (f : StreamResult) (e : String) (m : List (Nat × PrResult))
    (hf : f.result = Except.error e)
    (ha : ∀ r ∈ a, ∃ st, r.result = Except.ok st)
    (hb : ∀ r ∈ b, ∃ st, r.result = Except.ok st) (k : Nat) :
    (alGet k (aggregate m (a ++ f :: b))).map PrResult.fetch_errors =
      if k = f.pr_number then
        (alGet k m).map (fun r => r.fetch_errors ++ [mkFetchError f e])
      else (alGet k m).map PrResult.fetch_errors := by
  unfold aggregate
  rw [List.foldl_append, List.foldl_cons]
  rw [show List.foldl routeResult (routeResult (List.foldl routeResult m a) f) b =
    aggregate (routeResult (aggregate m a) f) b from rfl]
  rw [aggregate_errors_ok b _ k hb]
  rw [alGet_routeResult]
  by_cases hk : k = f.pr_number
  · rw [if_pos hk, if_pos hk]
    have h₁ : (alGet k (aggregate m a)).map PrResult.fetch_errors =
        (alGet k m).map PrResult.fetch_errors := aggregate_errors_ok a m k ha
    have h₂ := option_map_errors_append _ _ (mkFetchError f e) h₁
    rw [← h₂]
    cases hget : alGet k (aggregate m a) with
    | none => rfl
    | some v => simp [routePhi_errors_err f e v hf]
  · rw [if_neg hk, if_neg hk]
    exact aggregate_errors_ok a m k ha

/-- A reassembled list whose entries all carry empty error lists
contributes no errors. -/
theorem filterMap_join_errors_nil :
    ∀ (prs : List PullRequest) (m : List (Nat × PrResult)),
      (∀ pr ∈ prs, ∀ r, alGet pr.number m = some r → r.fetch_errors = []) →
      ((prs.filterMap (fun pr => alGet pr.number m)).map PrResult.fetch_errors).join = []
  | [], _, _ => rfl
  | pr :: rest, m, h => by
      have htail := filterMap_join_errors_nil rest m
        (fun pr₁ h₁ => h pr₁ (List.mem_cons_of_mem pr h₁))
      cases hget : alGet pr.number m with
      | none => simpa [List.filterMap_cons, hget] using htail
      | some r =>
          have hre := h pr (List.mem_cons_self pr rest) r hget
          simp [List.filterMap_cons, hget, hre, htail]

/-- A reassembled list in which exactly the entry at `k₀` carries one
error yields exactly that error. -/
theorem filterMap_join_errors_single :
    ∀ (prs : List PullRequest) (m : List (Nat × PrResult)) (k₀ : Nat)
      (err : FetchError),
      (prs.map PullRequest.number).Nodup →
      k₀ ∈ prs.map PullRequest.number →
      (∀ pr ∈ prs, ∃ r, alGet pr.number m = some r ∧
        r.fetch_errors = if pr.number = k₀ then [err] else []) →
      ((prs.filterMap (fun pr => alGet pr.number m)).map PrResult.fetch_errors).join = [err]
  | [], _, _, _, _, hmem, _ => absurd hmem (List.not_mem_nil _)
  | pr :: rest, m, k₀, err, hnd, hmem, h => by
      have hsplit := nodup_numbers_cons hnd
      obtain ⟨r, hr, hre⟩ := h pr (List.mem_cons_self pr rest)
      by_cases hk : pr.number = k₀
      · have hnil : ((rest.filterMap (fun pr₁ => alGet pr₁.number m)).map
            PrResult.fetch_errors).join = [] := by
          refine filterMap_join_errors_nil rest m ?_
          intro pr₁ h₁ r₁ hr₁
          obtain ⟨r₂, hr₂, hre₂⟩ := h pr₁ (List.mem_cons_of_mem pr h₁)
          rw [hr₁] at hr₂
          cases hr₂
          have hne : pr₁.number ≠ k₀ := by
            intro hcontra
            apply hsplit.1
            rw [hk, ← hcontra]
            exact List.mem_map_of_mem PullRequest.number h₁
          rw [hre₂, if_neg hne]
        have hrerr : r.fetch_errors = [err] := by rw [hre, if_pos hk]
        simp [List.filterMap_cons, hr, hrerr, hnil]
      · have hmem₂ : k₀ ∈ rest.map PullRequest.number := by
          rcases (by simpa using hmem :
              k₀ = pr.number ∨ ∃ q ∈ rest, q.number = k₀) with h₁ | ⟨q, hq, hqn⟩
          · exact absurd h₁.symm hk
          · rw [← hqn]
            exact List.mem_map_of_mem PullRequest.number hq
        have htail := filterMap_join_errors_single rest m k₀ err hsplit.2 hmem₂
          (fun pr₁ h₁ => h pr₁ (List.mem_cons_of_mem pr h₁))
        simp [List.filterMap_cons, hr, hre, hk, htail]

/-- Pointwise equal `logs` projections reassemble to equal `logs`
lists. -/
theorem filterMap_map_logs_congr :
    ∀ (prs : List PullRequest) (m₁ m₂ : List (Nat × PrResult)),
      (∀ k, (alGet k m₁).map PrResult.logs = (alGet k m₂).map PrResult.logs) →
      (prs.filterMap (fun pr => alGet pr.number m₁)).map PrResult.logs =
        (prs.filterMap (fun pr => alGet pr.number m₂)).map PrResult.logs
  | [], _, _, _ => rfl
  | pr :: rest, m₁, m₂, h => by
      simp only [List.filterMap_cons]
      rcases option_map_logs_cases _ _ (h pr.number) with ⟨h₁, h₂⟩ |
        ⟨v₁, v₂, h₁, h₂, hlogs⟩
      · rw [h₁, h₂]
        exact filterMap_map_logs_congr rest m₁ m₂ h
      · rw [h₁, h₂]
        simp only [List.map_cons]
        rw [hlogs, filterMap_map_logs_congr rest m₁ m₂ h]

/-- Tasks produced by the collection step carry resolvable URLs and
originate from a map entry's PR and one of its failing checks. -/
theorem collect_mem_struct (m : List (Nat × PrResult))
    (t : Nat × String × Url × LogUrl)
    (ht : t ∈ collect_failing_check_urls m) :
    ∃ entry ∈ m, ∃ check ∈ entry.2.pr.checks,
      check.is_failed = true ∧ check.url = some t.2.2.1 ∧
      ci_url_to_log_url t.2.2.1 = some t.2.2.2 ∧
      t.1 = entry.2.pr.number ∧ t.2.1 = check.name := by
  unfold collect_failing_check_urls at ht
  obtain ⟨entry, hent, hmem⟩ := List.mem_flatMap.mp ht
  obtain ⟨check, hcheck, hfc⟩ := List.mem_filterMap.mp hmem
  refine ⟨entry, hent, check, hcheck, ?_⟩
  by_cases hfail : check.is_failed
  · rw [if_pos hfail] at hfc
    cases hurl : check.url with
    | none => rw [hurl] at hfc; cases hfc
    | some url =>
        rw [hurl] at hfc
        obtain ⟨lg, hlg, ht₂⟩ := Option.map_eq_some'.mp hfc
        subst ht₂
        exact ⟨hfail, rfl, hlg, rfl, rfl⟩
  · rw [if_neg hfail] at hfc
    cases hfc

/-- A task's `StreamResult` keeps the task's routing context. -/
theorem runTask_fields (oracle : Oracle) (t : Nat × String × Url × LogUrl) :
    (runTask oracle t).pr_number = t.1 ∧ (runTask oracle t).check_name = t.2.1 ∧
    (runTask oracle t).check_url = t.2.2.1 ∧ (runTask oracle t).log_url = t.2.2.2 := by
  obtain ⟨a, b, c, d⟩ := t
  exact ⟨rfl, rfl, rfl, rfl⟩

/-- A task of the full pipeline has a PR number of the input list. -/
theorem collect_mem_pr_number (prs : List PullRequest)
    (hnd : (prs.map PullRequest.number).Nodup)
    (t : Nat × String × Url × LogUrl)
    (ht : t ∈ collect_failing_check_urls (buildPrMap prs)) :
    t.1 ∈ prs.map PullRequest.number := by
  obtain ⟨entry, hent, -, -, -, -, -, hnum, -⟩ := collect_mem_struct _ t ht
  rw [buildPrMap_eq prs hnd] at hent
  obtain ⟨q, hq, hqe⟩ := List.mem_map.mp hent
  rw [hnum, ← hqe]
  exact List.mem_map_of_mem PullRequest.number hq

/-- Claim C1: when exactly one task of the pipeline fails (its outcome
is an error) while every other task succeeds, the returned `PrResult`
list contains exactly one `FetchError` — carrying that task's PR
number, check name, check URL and resolved log URL — and the `logs` of
every result are exactly what they would be had the failing task's
outcome not been delivered at all; no task failure escapes the
orchestrator or alters another task's contribution. -/
theorem partial_failure_isolation (oracle : Oracle) (prs : List PullRequest)
    (a b : List StreamResult) (f : StreamResult) (e : String)
    (hnd : (prs.map PullRequest.number).Nodup)
    (hsplit : fetch_urls_concurrently oracle
        (collect_failing_check_urls (buildPrMap prs)) = a ++ f :: b)
    (hf : f.result = Except.error e)
    (ha : ∀ r ∈ a, ∃ st, r.result = Except.ok st)
    (hb : ∀ r ∈ b, ∃ st, r.result = Except.ok st) :
    ((fetch_logs_for_prs oracle prs).map PrResult.fetch_errors).join =
      [mkFetchError f e] ∧
    (fetch_logs_for_prs oracle prs).map PrResult.logs =
      (reassemble prs (aggregate (buildPrMap prs) (a ++ b))).map PrResult.logs := by
  have htasks : ¬ (collect_failing_check_urls (buildPrMap prs)).isEmpty = true := by
    intro hemp
    rw [List.isEmpty_iff] at hemp
    rw [hemp] at hsplit
    have hcontra : (a ++ f :: b : List StreamResult) = [] := by
      simpa [fetch_urls_concurrently] using hsplit.symm
    simp at hcontra
  have hmem : f.pr_number ∈ prs.map PullRequest.number := by
    have hfin : f ∈ fetch_urls_concurrently oracle
        (collect_failing_check_urls (buildPrMap prs)) := by
      rw [hsplit]
      exact List.mem_append_right a (List.mem_cons_self f b)
    obtain ⟨t, ht, hrt⟩ := List.mem_map.mp hfin
    have := (runTask_fields oracle t).1
    rw [hrt] at this
    rw [this]
    exact collect_mem_pr_number prs hnd t ht
  have hout : fetch_logs_for_prs oracle prs =
      reassemble prs (aggregate (buildPrMap prs) (a ++ f :: b)) := by
    simp only [fetch_logs_for_prs]
    rw [if_neg htasks, hsplit]
  constructor
  · rw [hout, reassemble_eq_filterMap _ _ hnd]
    refine filterMap_join_errors_single prs _ f.pr_number (mkFetchError f e)
      hnd hmem ?_
    intro pr hpr
    have h₁ := aggregate_one_err_errors a b f e (buildPrMap prs) hf ha hb pr.number
    rw [buildPrMap_get prs pr hnd hpr] at h₁
    by_cases hk : pr.number = f.pr_number
    · rw [if_pos hk] at h₁
      cases hget : alGet pr.number (aggregate (buildPrMap prs) (a ++ f :: b)) with
      | none => rw [hget] at h₁; cases h₁
      | some r =>
          rw [hget] at h₁
          simp only [Option.map_some', Option.some.injEq] at h₁
          exact ⟨r, rfl, by rw [h₁, if_pos hk]; rfl⟩
    · rw [if_neg hk] at h₁
      cases hget : alGet pr.number (aggregate (buildPrMap prs) (a ++ f :: b)) with
      | none => rw [hget] at h₁; cases h₁
      | some r =>
          rw [hget] at h₁
          simp only [Option.map_some', Option.some.injEq] at h₁
          exact ⟨r, rfl, by rw [h₁, if_neg hk]⟩
  · rw [hout, reassemble_eq_filterMap _ _ hnd, reassemble_eq_filterMap _ _ hnd]
    exact filterMap_map_logs_congr prs _ _
      (fun k => aggregate_remove_err_logs a b f e (buildPrMap prs) hf k)

/-- Witness for the C1 theorem: a single PR with one failing check
whose download answers HTTP 500. -/
theorem partial_failure_isolation_witness :
    ((fetch_logs_for_prs (fun _ => FetchResponse.response ⟨500, []⟩)
        [⟨1, [⟨"ci", some CheckConclusion.Failure, none,
          some ⟨"https://x/raw/l", some "x", "/raw/l"⟩⟩]⟩]).map
        PrResult.fetch_errors).join =
      [mkFetchError
        ⟨1, "ci", ⟨"https://x/raw/l", some "x", "/raw/l"⟩, ⟨"https://x/raw/l"⟩,
          Except.error "HTTP 500 from https://x/raw/l"⟩
        "HTTP 500 from https://x/raw/l"] :=
  (partial_failure_isolation (fun _ => FetchResponse.response ⟨500, []⟩)
    [⟨1, [⟨"ci", some CheckConclusion.Failure, none,
      some ⟨"https://x/raw/l", some "x", "/raw/l"⟩⟩]⟩]
    [] []
    ⟨1, "ci", ⟨"https://x/raw/l", some "x", "/raw/l"⟩, ⟨"https://x/raw/l"⟩,
      Except.error "HTTP 500 from https://x/raw/l"⟩
    "HTTP 500 from https://x/raw/l"
    (by decide) (by decide) rfl (by simp) (by simp)).1

/-! Lemmas for the exclusion of unresolvable check URLs. -/

/-- Lookup of a freshly inserted key. -/
theorem alGet_alInsert_self {κ ν : Type} [DecidableEq κ] (k : κ) (v : ν)
    (m : List (κ × ν)) : alGet k (alInsert k v m) = some v := by
  induction m with
  | nil => simp [alInsert, alGet]
  | cons hd tl ih =>
      obtain ⟨k₁, v₁⟩ := hd
      simp only [alInsert]
      by_cases h : k₁ = k
      · simp [alGet, h]
      · simp [alGet, h, ih]

/-- Insertion leaves other keys' entries unchanged. -/
theorem alGet_alInsert_ne {κ ν : Type} [DecidableEq κ] (k k₀ : κ) (v : ν)
    (m : List (κ × ν)) (h : k ≠ k₀) :
    alGet k (alInsert k₀ v m) = alGet k m := by
  induction m with
  | nil => simp [alInsert, alGet, show k₀ ≠ k from fun hh => h hh.symm]
  | cons hd tl ih =>
      obtain ⟨k₁, v₁⟩ := hd
      simp only [alInsert]
      by_cases h₁ : k₁ = k₀
      · subst h₁
        have h₂ : k₁ ≠ k := fun hc => h hc.symm
        simp [alGet, h₂]
      · by_cases h₂ : k₁ = k
        · simp [alGet, h₁, h₂, h]
        · simp [alGet, h₁, h₂, ih]

/-- The streaming loop never changes the task's check name. -/
theorem streamRun_check_name :
    ∀ (body : List (Except String String)) (s st : TaskState),
      streamRun body s = Except.ok st → st.check_name = s.check_name
  | [], s, st, h => by
      cases h
      rfl
  | Except.error e :: rest, s, st, h => by
      rw [streamRun_cons_error] at h
      cases h
  | Except.ok l :: rest, s, st, h => by
      rw [streamRun_cons_ok] at h
      by_cases hc : (processLine l s).2 = true
      · rw [if_pos hc] at h
        rw [streamRun_check_name rest _ st h, processLine_check_name]
      · rw [if_neg hc] at h
        cases h
        rw [processLine_check_name]

/-- A successful task outcome's state carries the task's check name. -/
theorem runTask_ok_check_name (oracle : Oracle)
    (t : Nat × String × Url × LogUrl) (st : TaskState)
    (h : (runTask oracle t).result = Except.ok st) :
    st.check_name = t.2.1 := by
  obtain ⟨a, b, c, d⟩ := t
  rw [runTask_eq] at h
  dsimp only at h
  cases horacle : oracle d with
  | sendError e =>
      rw [horacle] at h
      cases h
  | response r =>
      rw [horacle] at h
      dsimp only at h
      by_cases hst : isSuccessStatus r.status = true
      · rw [if_pos hst] at h
        exact streamRun_check_name r.body _ st h
      · rw [if_neg hst] at h
        cases h

/-- Distinct PR numbers identify their PRs. -/
theorem nodup_map_inj :
    ∀ (prs : List PullRequest), (prs.map PullRequest.number).Nodup →
      ∀ p q, p ∈ prs → q ∈ prs → p.number = q.number → p = q
  | [], _, p, _, hp, _, _ => absurd hp (List.not_mem_nil p)
  | x :: rest, hnd, p, q, hp, hq, heq => by
      have hsplit := nodup_numbers_cons hnd
      rcases List.mem_cons.mp hp with hp₁ | hp₁ <;>
        rcases List.mem_cons.mp hq with hq₁ | hq₁
      · rw [hp₁, hq₁]
      · subst hp₁
        exact absurd (heq ▸ List.mem_map_of_mem PullRequest.number hq₁)
          hsplit.1
      · subst hq₁
        exact absurd (heq ▸ List.mem_map_of_mem PullRequest.number hp₁)
          hsplit.1
      · exact nodup_map_inj rest hsplit.2 p q hp₁ hq₁ heq

/-- Entries of the initial map are the input PRs' own entries. -/
theorem mem_buildPrMap_struct (prs : List PullRequest)
    (hnd : (prs.map PullRequest.number).Nodup)
    (entry : Nat × PrResult) (hent : entry ∈ buildPrMap prs) :
    ∃ q ∈ prs, entry = (q.number, (⟨q, [], []⟩ : PrResult)) := by
  rw [buildPrMap_eq prs hnd] at hent
  obtain ⟨q, hq, hqe⟩ := List.mem_map.mp hent
  exact ⟨q, hq, hqe.symm⟩

/-- Every fetch error in the aggregated map was there initially or
carries the check URL of one delivered outcome. -/
theorem aggregate_errors_from :
    ∀ (rs : List StreamResult) (m : List (Nat × PrResult)) (k : Nat)
      (r : PrResult),
      alGet k (aggregate m rs) = some r →
      ∀ fe ∈ r.fetch_errors,
        (∃ r₀, alGet k m = some r₀ ∧ fe ∈ r₀.fetch_errors) ∨
          ∃ sr ∈ rs, fe.check_url = sr.check_url
  | [], _, _, r, h, fe, hfe => Or.inl ⟨r, h, hfe⟩
  | sr :: rest, m, k, r, h, fe, hfe => by
      rcases aggregate_errors_from rest (routeResult m sr) k r h fe hfe with
        ⟨r₀, hr₀, hfer₀⟩ | ⟨sr₁, hsr₁, hcu⟩
      · rw [alGet_routeResult] at hr₀
        by_cases hk : k = sr.pr_number
        · rw [if_pos hk] at hr₀
          cases hget : alGet k m with
          | none => rw [hget] at hr₀; cases hr₀
          | some r₁ =>
              rw [hget] at hr₀
              simp only [Option.map_some', Option.some.injEq] at hr₀
              subst hr₀
              cases hres : sr.result with
              | ok st =>
                  rw [routePhi_errors_ok sr st r₁ hres] at hfer₀
                  exact Or.inl ⟨r₁, rfl, hfer₀⟩
              | error e =>
                  rw [routePhi_errors_err sr e r₁ hres] at hfer₀
                  rcases List.mem_append.mp hfer₀ with h₁ | h₂
                  · exact Or.inl ⟨r₁, rfl, h₁⟩
                  · right
                    refine ⟨sr, List.mem_cons_self sr rest, ?_⟩
                    have hfe₂ : fe = mkFetchError sr e := by simpa using h₂
                    rw [hfe₂]
                    rfl
        · rw [if_neg hk] at hr₀
          exact Or.inl ⟨r₀, hr₀, hfer₀⟩
      · exact Or.inr ⟨sr₁, List.mem_cons_of_mem sr hsr₁, hcu⟩

/-- Every log entry in the aggregated map was there initially or was
written by a successful outcome of the same PR whose state carries that
check name. -/
theorem aggregate_logs_from :
    ∀ (rs : List StreamResult) (m : List (Nat × PrResult)) (k : Nat)
      (r : PrResult),
      alGet k (aggregate m rs) = some r →
      ∀ name v, alGet name r.logs = some v →
        (∃ r₀, alGet k m = some r₀ ∧ alGet name r₀.logs = some v) ∨
          ∃ sr ∈ rs, sr.pr_number = k ∧
            ∃ st, sr.result = Except.ok st ∧ st.check_name = name
  | [], _, _, r, h, _, _, hv => Or.inl ⟨r, h, hv⟩
  | sr :: rest, m, k, r, h, name, v, hv => by
      rcases aggregate_logs_from rest (routeResult m sr) k r h name v hv with
        ⟨r₀, hr₀, hvr₀⟩ | ⟨sr₁, hsr₁, hnum, hst⟩
      · rw [alGet_routeResult] at hr₀
        by_cases hk : k = sr.pr_number
        · rw [if_pos hk] at hr₀
          cases hget : alGet k m with
          | none => rw [hget] at hr₀; cases hr₀
          | some r₁ =>
              rw [hget] at hr₀
              simp only [Option.map_some', Option.some.injEq] at hr₀
              subst hr₀
              cases hres : sr.result with
              | error e =>
                  rw [routePhi_logs_err sr e r₁ hres] at hvr₀
                  exact Or.inl ⟨r₁, rfl, hvr₀⟩
              | ok st =>
                  rw [routePhi_logs_ok sr st r₁ hres] at hvr₀
                  by_cases hemp : st.error_lines.isEmpty = true
                  · rw [if_pos hemp] at hvr₀
                    exact Or.inl ⟨r₁, rfl, hvr₀⟩
                  · rw [if_neg hemp] at hvr₀
                    by_cases hname : name = st.check_name
                    · exact Or.inr ⟨sr, List.mem_cons_self sr rest, hk.symm,
                        st, hres, hname.symm⟩
                    · rw [alGet_alInsert_ne name st.check_name _ _ hname] at hvr₀
                      exact Or.inl ⟨r₁, rfl, hvr₀⟩
        · rw [if_neg hk] at hr₀
          exact Or.inl ⟨r₀, hr₀, hvr₀⟩
      · exact Or.inr ⟨sr₁, List.mem_cons_of_mem sr hsr₁, hnum, hst⟩

/-- Claim C9: a failing check whose URL does not resolve to a log URL
never becomes a fetch task (no task carries that URL), and it
contributes to neither the `logs` map nor the `fetchErrors` list of the
returned results: no fetch error anywhere carries the unresolvable URL,
and — when no other check of the PR shares the check's name — the PR's
returned `logs` has no entry under that name.  (Distinct PR numbers
identify the PR; the same-name hypothesis pins `logs` keys, which are
check names, to this check.) -/
theorem unresolvable_check_excluded (prs : List PullRequest)
    (pr : PullRequest) (check : CheckInfo) (u : Url) (oracle : Oracle)
    (hnd : (prs.map PullRequest.number).Nodup)
    (hpr : pr ∈ prs) (hc : check ∈ pr.checks) (hurl : check.url = some u)
    (hres : ci_url_to_log_url u = none)
    (hname : ∀ c ∈ pr.checks, c.name = check.name → c.url = some u) :
    (∀ t ∈ collect_failing_check_urls (buildPrMap prs), t.2.2.1 ≠ u) ∧
    (∀ res ∈ fetch_logs_for_prs oracle prs, ∀ fe ∈ res.fetch_errors,
      fe.check_url ≠ u) ∧
    (∀ res ∈ fetch_logs_for_prs oracle prs, res.pr.number = pr.number →
      alGet check.name res.logs = none) := by
  have htask : ∀ t ∈ collect_failing_check_urls (buildPrMap prs),
      t.2.2.1 ≠ u := by
    intro t ht hcontra
    obtain ⟨entry, hent, c, hcmem, hfail, hcurl, hresolve, hnumt, hnamet⟩ :=
      collect_mem_struct _ t ht
    rw [hcontra, hres] at hresolve
    cases hresolve
  by_cases hemp : (collect_failing_check_urls (buildPrMap prs)).isEmpty = true
  · have hout : fetch_logs_for_prs oracle prs =
        reassemble prs (buildPrMap prs) := by
      simp only [fetch_logs_for_prs]
      rw [if_pos hemp]
    refine ⟨htask, ?_, ?_⟩
    · intro res hresmem fe hfe hcontra
      rw [hout, reassemble_eq_filterMap _ _ hnd] at hresmem
      obtain ⟨q, hq, hget⟩ := List.mem_filterMap.mp hresmem
      rw [(buildPrMap_entry prs q.number res hget).2] at hfe
      exact (List.not_mem_nil fe) hfe
    · intro res hresmem hnumeq
      rw [hout, reassemble_eq_filterMap _ _ hnd] at hresmem
      obtain ⟨q, hq, hget⟩ := List.mem_filterMap.mp hresmem
      rw [(buildPrMap_entry prs q.number res hget).1]
      rfl
  · have hout : fetch_logs_for_prs oracle prs =
        reassemble prs (aggregate (buildPrMap prs)
          ((collect_failing_check_urls (buildPrMap prs)).map (runTask oracle))) := by
      simp only [fetch_logs_for_prs]
      rw [if_neg hemp]
      rfl
    refine ⟨htask, ?_, ?_⟩
    · intro res hresmem fe hfe hcontra
      rw [hout, reassemble_eq_filterMap _ _ hnd] at hresmem
      obtain ⟨q, hq, hget⟩ := List.mem_filterMap.mp hresmem
      rcases aggregate_errors_from _ _ _ _ hget fe hfe with
        ⟨r₀, hr₀, hfer₀⟩ | ⟨sr, hsr, hcu⟩
      · rw [(buildPrMap_entry prs q.number r₀ hr₀).2] at hfer₀
        exact (List.not_mem_nil fe) hfer₀
      · obtain ⟨t, ht, hrt⟩ := List.mem_map.mp hsr
        have hcu₂ := (runTask_fields oracle t).2.2.1
        rw [hrt] at hcu₂
        refine htask t ht ?_
        rw [← hcu₂, ← hcu]
        exact hcontra
    · intro res hresmem hnumeq
      rw [hout, reassemble_eq_filterMap _ _ hnd] at hresmem
      obtain ⟨q, hq, hget⟩ := List.mem_filterMap.mp hresmem
      have hqpr : res.pr = q := by
        have h₁ := aggregate_get_pr
          ((collect_failing_check_urls (buildPrMap prs)).map (runTask oracle))
          (buildPrMap prs) q.number
        rw [buildPrMap_get prs q hnd hq, hget] at h₁
        simpa using h₁
      have hq_pr : q = pr :=
        nodup_map_inj prs hnd q pr hq hpr (by rw [← hqpr]; exact hnumeq)
      cases hlog : alGet check.name res.logs with
      | none => rfl
      | some v =>
          exfalso
          rcases aggregate_logs_from _ _ _ _ hget check.name v hlog with
            ⟨r₀, hr₀, hvr₀⟩ | ⟨sr, hsr, hnum, st, hok, hstname⟩
          · rw [(buildPrMap_entry prs q.number r₀ hr₀).1] at hvr₀
            cases hvr₀
          · obtain ⟨t, ht, hrt⟩ := List.mem_map.mp hsr
            have hnum₂ : t.1 = pr.number := by
              have h₁ := (runTask_fields oracle t).1
              rw [hrt] at h₁
              rw [← h₁, hnum, hq_pr]
            have hstn : st.check_name = t.2.1 := by
              refine runTask_ok_check_name oracle t st ?_
              rw [hrt]
              exact hok
            have hnamet : t.2.1 = check.name := by
              rw [← hstn, hstname]
            obtain ⟨entry, hent, c, hcmem, hfail, hcurl, hresolve, hnumt, hcn⟩ :=
              collect_mem_struct _ t ht
            obtain ⟨q₁, hq₁, hq₁e⟩ := mem_buildPrMap_struct prs hnd entry hent
            have hq₁pr : q₁ = pr := by
              refine nodup_map_inj prs hnd q₁ pr hq₁ hpr ?_
              rw [← hnum₂, hnumt, hq₁e]
            have hcmem₂ : c ∈ pr.checks := by
              rw [← hq₁pr]
              have : entry.2.pr = q₁ := by rw [hq₁e]
              rw [← this]
              exact hcmem
            have hcname : c.name = check.name := by
              rw [← hcn]
              exact hnamet
            have hcurl₂ : c.url = some u := hname c hcmem₂ hcname
            rw [hcurl₂] at hcurl
            have hueq : u = t.2.2.1 := Option.some.inj hcurl
            exact htask t ht hueq.symm

/-- Witness for the C9 theorem: one PR whose single failing check URL
points at an issue comment, which the resolver rejects. -/
theorem unresolvable_check_excluded_witness :
    (∀ t ∈ collect_failing_check_urls (buildPrMap
        [⟨1, [⟨"ci", some CheckConclusion.Failure, none,
          some ⟨"https://github.com/o/r/pull/1#issuecomment-5",
            some "github.com", "/o/r/pull/1"⟩⟩]⟩]),
      t.2.2.1 ≠ ⟨"https://github.com/o/r/pull/1#issuecomment-5",
        some "github.com", "/o/r/pull/1"⟩) ∧
    (∀ res ∈ fetch_logs_for_prs (fun _ => FetchResponse.sendError "x")
        [⟨1, [⟨"ci", some CheckConclusion.Failure, none,
          some ⟨"https://github.com/o/r/pull/1#issuecomment-5",
            some "github.com", "/o/r/pull/1"⟩⟩]⟩],
      ∀ fe ∈ res.fetch_errors,
        fe.check_url ≠ ⟨"https://github.com/o/r/pull/1#issuecomment-5",
          some "github.com", "/o/r/pull/1"⟩) ∧
    (∀ res ∈ fetch_logs_for_prs (fun _ => FetchResponse.sendError "x")
        [⟨1, [⟨"ci", some CheckConclusion.Failure, none,
          some ⟨"https://github.com/o/r/pull/1#issuecomment-5",
            some "github.com", "/o/r/pull/1"⟩⟩]⟩],
      res.pr.number =
        (⟨1, [⟨"ci", some CheckConclusion.Failure, none,
          some ⟨"https://github.com/o/r/pull/1#issuecomment-5",
            some "github.com", "/o/r/pull/1"⟩⟩]⟩ : PullRequest).number →
        alGet "ci" res.logs = none) :=
  unresolvable_check_excluded
    [⟨1, [⟨"ci", some CheckConclusion.Failure, none,
      some ⟨"https://github.com/o/r/pull/1#issuecomment-5",
        some "github.com", "/o/r/pull/1"⟩⟩]⟩]
    ⟨1, [⟨"ci", some CheckConclusion.Failure, none,
      some ⟨"https://github.com/o/r/pull/1#issuecomment-5",
        some "github.com", "/o/r/pull/1"⟩⟩]⟩
    ⟨"ci", some CheckConclusion.Failure, none,
      some ⟨"https://github.com/o/r/pull/1#issuecomment-5",
        some "github.com", "/o/r/pull/1"⟩⟩
    ⟨"https://github.com/o/r/pull/1#issuecomment-5",
      some "github.com", "/o/r/pull/1"⟩
    (fun _ => FetchResponse.sendError "x")
    (by decide) (by decide) (by decide) rfl (by decide) (by decide)

/-- Witness for the C7 theorem: a body whose second read fails. -/
theorem stream_failure_is_total_failure_witness :
    runTask (fun _ => FetchResponse.response ⟨200, [Except.ok "a", Except.error "boom"]⟩)
        (1, "ci", ⟨"https://x/raw/l", some "x", "/raw/l"⟩, ⟨"https://x/raw/l"⟩) =
      ⟨1, "ci", ⟨"https://x/raw/l", some "x", "/raw/l"⟩, ⟨"https://x/raw/l"⟩,
        Except.error ("Failed to read line: " ++ "boom")⟩ :=
  (stream_failure_is_total_failure 1 "ci" ⟨"https://x/raw/l", some "x", "/raw/l"⟩
      ⟨"https://x/raw/l"⟩
      (fun _ => FetchResponse.response ⟨200, [Except.ok "a", Except.error "boom"]⟩)
      200 ["a"] "boom" [] rfl (by decide) (by decide)).1

end Autoprat
